import Mathlib

/-!
Verification of the pagination helper and the command-line front end of
the Evo console explorer (`src/main.py`).

The development is a shallow embedding: each Python function that the
properties talk about is translated into an executable Lean definition,
and the properties are proved about those definitions.

* `paginate` (with its loop `paginateLoop`) embeds the generic
  offset/limit pagination generator of `src/main.py` lines 28-58.  The
  asynchronous fetch function becomes a function from the `limit` and
  `offset` of a call to either an error (a raised exception) or a `Page`;
  the observable behaviour of a run is a `Trace`: the offsets of the
  fetch calls made, the batches yielded, and the propagated error, if any.
* `get_organizations`, `get_workspace_page`, `get_files`, `get_objects`
  embed the four listing handlers, instrumented with the connector
  lifecycle events they perform (`ConnEv`).
* `parseArgs`, `validateArgs` and `main` embed the argument handling of
  `main` (`src/main.py` lines 136-186), instrumented with login/network
  events (`MainEv`).
-/

namespace EvoConsole

/-- A page result from an offset/limit list endpoint, as consumed by
`paginate` in `src/main.py`: the overall item count the service reports
(`page.total`) and the items of this page (`page.items()`). -/
structure Page (α : Type) where
  total : Nat
  items : List α
deriving DecidableEq

/-- Observable behaviour of one run of `paginate`: the offsets passed to
the fetch function, in call order; the batches yielded, in order; and the
error the fetch function raised, if any (re-raised by the generator). -/
structure Trace (ε α : Type) where
  calls : List Nat
  batches : List (List α)
  error : Option ε
deriving DecidableEq

/-- The `while` loop of `paginate` (`src/main.py` lines 43-58) once the
first iteration has set `total`: while `offset < total`, call the fetch
function with the `limit` and the current `offset`, stop on an empty page
(`if not items: break`), otherwise yield the page and advance `offset` by
the number of items actually returned (`offset += len(items)`).  An
exception from the fetch function ends the run and is recorded in the
trace. -/
def paginateLoop (fetch : Nat → Nat → Except ε (Page α)) (limit : Nat)
    (total : Nat) (offset : Nat) : Trace ε α :=
  if _h : offset < total then
    match fetch limit offset with
    | .error e => ⟨[offset], [], some e⟩
    | .ok page =>
      if hi : page.items.isEmpty then ⟨[offset], [], none⟩
      else
        let rest := paginateLoop fetch limit total (offset + page.items.length)
        ⟨offset :: rest.calls, page.items :: rest.batches, rest.error⟩
  else ⟨[], [], none⟩
termination_by total - offset
decreasing_by
  simp only [List.isEmpty_eq_true] at hi
  have := List.length_pos.mpr hi
  omega

/-- Shallow embedding of `paginate` (`src/main.py` lines 28-58).  The
first iteration runs unconditionally (`total is None` holds on entry),
captures `total` from the first response, and yields the first page
exactly when it is nonempty; the remaining iterations are `paginateLoop`
started at `offset = len(items)` with the captured total.  The fetch
function receives the `limit` and `offset` of each call; the fixed extra
keyword arguments of the Python version are part of the fetch function
itself. -/
def paginate (fetch : Nat → Nat → Except ε (Page α)) (limit : Nat) : Trace ε α :=
  match fetch limit 0 with
  | .error e => ⟨[0], [], some e⟩
  | .ok page =>
    if page.items.isEmpty then ⟨[0], [], none⟩
    else
      let rest := paginateLoop fetch limit page.total page.items.length
      ⟨0 :: rest.calls, page.items :: rest.batches, rest.error⟩

/-- A fetch function that cannot raise: every call returns a page. -/
def pureFetch (f : Nat → Nat → Page α) : Nat → Nat → Except Empty (Page α) :=
  fun limit offset => Except.ok (f limit offset)

/-- The items of a response, with errors passed through: the part of a
response that `paginate` inspects on every call (the `total` field is only
read from the first response). -/
def respItems : Except ε (Page α) → Except ε (List α)
  | .error e => .error e
  | .ok p => .ok p.items

/-- Sum of the lengths of a list of batches: the number of items received
over those batches. -/
def sumLens (bs : List (List α)) : Nat := (bs.map List.length).sum

/-- A well-behaved endpoint over the items `0, …, total - 1`: the page at
`offset` holds the `min limit (total - offset)` items starting at
`offset` — full pages of exactly `limit` items until a final shorter
(possibly empty) page — and every response reports the same `total`,
equal to the item count. -/
def uniformPage (total : Nat) (limit : Nat) (offset : Nat) : Page Nat :=
  ⟨total, List.range' offset (min limit (total - offset))⟩

/-- `uniformPage` as a fetch function. -/
def uniformFetch (total : Nat) : Nat → Nat → Except Empty (Page Nat) :=
  pureFetch (uniformPage total)

/-- A first page that is nonempty although it reports `total = 0`: an API
whose reported total is inconsistent with the items it returns. -/
def overPage : Page Nat := ⟨0, [7, 8]⟩

/-- Pages serving `overPage` first and empty pages after it. -/
def overPageF : Nat → Nat → Page Nat :=
  fun _ offset => if offset = 0 then overPage else ⟨0, []⟩

/-- `overPageF` as a fetch function. -/
def overFetch : Nat → Nat → Except Empty (Page Nat) :=
  pureFetch overPageF

/-- An endpoint whose every page is empty while reporting `total = 5`. -/
def emptyPageF : Nat → Nat → Page Nat :=
  fun _ _ => ⟨5, []⟩

/-- An endpoint that serves the same items as `uniformFetch 120` but
reports a different total on every response after the first. -/
def shiftTotalFetch : Nat → Nat → Except Empty (Page Nat) :=
  fun limit offset =>
    Except.ok ⟨if offset = 0 then 120 else 999, List.range' offset (min limit (120 - offset))⟩

/-- A fetch function that serves a full first page out of `120` items and
raises `"boom"` on every later call. -/
def errFetch : Nat → Nat → Except String (Page Nat) :=
  fun limit offset =>
    if offset = 0 then Except.ok (uniformPage 120 limit 0) else Except.error "boom"

/-- Connector lifecycle events performed by a listing handler. -/
inductive ConnEv
  | acquire
  | release
deriving DecidableEq

/-- The collection loop shared by the workspace/file/object handlers
(`src/main.py` lines 89-93, 99-103, 109-113): start from the empty list
and `extend` it with each batch the generator yields; an error raised by
the generator propagates and the partially extended local list is
discarded with the function frame. -/
def collectBatches (t : Trace ε α) : Except ε (List α) :=
  match t.error with
  | some e => Except.error e
  | none => Except.ok (t.batches.foldl (fun acc b => acc ++ b) [])

/-- `get_organizations` (`src/main.py` lines 79-83): the discovery
connector is entered with `async with`, so it is acquired on entry and
released when the block exits — both on normal return and when the listing
call raises.  The single non-paginated listing call is abstracted as its
result. -/
def get_organizations (listOrgs : Except ε (List α)) :
    Except ε (List α) × List ConnEv :=
  match listOrgs with
  | .ok orgs => (Except.ok orgs, [ConnEv.acquire, ConnEv.release])
  | .error e => (Except.error e, [ConnEv.acquire, ConnEv.release])

/-- `get_workspace_page` (`src/main.py` lines 85-93): the hub connector is
constructed directly, with no `async with` block and no explicit close, so
no release happens when the function exits; the workspaces are collected
by driving `paginate` with `limit=50`. -/
def get_workspace_page (fetch : Nat → Nat → Except ε (Page α)) :
    Except ε (List α) × List ConnEv :=
  (collectBatches (paginate fetch 50), [ConnEv.acquire])

/-- The default page size of `paginate` (`limit=50` in `src/main.py`
line 28), used by the handlers that do not pass `limit` explicitly. -/
def defaultLimit : Nat := 50

/-- `get_files` (`src/main.py` lines 95-103): like `get_workspace_page`,
the connector is constructed without a context manager and never released;
`paginate` runs with the default limit. -/
def get_files (fetch : Nat → Nat → Except ε (Page α)) :
    Except ε (List α) × List ConnEv :=
  (collectBatches (paginate fetch defaultLimit), [ConnEv.acquire])

/-- `get_objects` (`src/main.py` lines 105-113): same shape as
`get_files`. -/
def get_objects (fetch : Nat → Nat → Except ε (Page α)) :
    Except ε (List α) × List ConnEv :=
  (collectBatches (paginate fetch defaultLimit), [ConnEv.acquire])

/-- The parsed command-line arguments of `main` (`src/main.py` lines
140-152): four mode flags and four optional string options (`None` when
the flag is absent). -/
structure Args where
  instances : Bool
  workspaces : Bool
  files : Bool
  objects : Bool
  org_id : Option String
  instance_url : Option String
  workspace_id : Option String
  client_id : Option String
deriving DecidableEq

/-- Python truthiness of an optional string option, as tested by the
validation checks (`not args.org_id` and similar): an absent option and an
empty string are both falsy. -/
def truthy : Option String → Bool
  | none => false
  | some s => !s.isEmpty

/-- Number of mode flags selected. -/
def modeCount (a : Args) : Nat :=
  (if a.instances then 1 else 0) + (if a.workspaces then 1 else 0) +
    (if a.files then 1 else 0) + (if a.objects then 1 else 0)

/-- The argument-parsing collaborator as configured by `main`
(`src/main.py` lines 137-152): the four mode flags form a required
mutually exclusive group, and `--client-id` is declared `required=True`.
Selecting zero modes or more than one mode, or omitting `--client-id`,
aborts parsing with a usage error; parsing never inspects the option
values beyond presence. -/
def parseArgs (a : Args) : Except String Args :=
  if modeCount a = 0 then
    Except.error "one of the arguments --instances --workspaces --files --objects is required"
  else if 1 < modeCount a then
    Except.error "argument not allowed with another mode argument"
  else if a.client_id = none then
    Except.error "the following arguments are required: --client-id"
  else
    Except.ok a

/-- The explicit validation checks of `main` (`src/main.py` lines
155-162), run after parsing succeeds.  Each `parser.error` call terminates
the program, so the three successive `if` statements behave as a chain. -/
def validateArgs (a : Args) : Except String Unit :=
  if a.workspaces && (!truthy a.org_id || !truthy a.instance_url) then
    Except.error "--workspaces requires both --org-id and --instance-url"
  else if a.files && (!truthy a.workspace_id || !truthy a.instance_url || !truthy a.org_id) then
    Except.error "--files requires both --workspace-id, --instance-url and --org-id"
  else if a.objects && (!truthy a.workspace_id || !truthy a.instance_url || !truthy a.org_id) then
    Except.error "--objects requires both --workspace-id, --instance-url and --org-id"
  else
    Except.ok ()

/-- Run phase events of `main`: the interactive login and the network
listing activity of the selected mode. -/
inductive MainEv
  | login
  | network
deriving DecidableEq

/-- The control flow of `main` (`src/main.py` lines 136-186): parse the
arguments, run the validation checks, and only if both succeed perform
login followed by the selected listing operation (the event list records
that activity); a parse or validation failure terminates with the usage
message before any event, and the success path returns exit status `0`. -/
def main (a : Args) : List MainEv × Except String Nat :=
  match parseArgs a with
  | .error m => ([], Except.error m)
  | .ok a' =>
    match validateArgs a' with
    | .error m => ([], Except.error m)
    | .ok _ => ([MainEv.login, MainEv.network], Except.ok 0)

/-- The process exit status resulting from a `main` outcome: usage errors
terminate with the argument parser's exit status `2`, success with the
returned code. -/
def exitCode : Except String Nat → Nat
  | .error _ => 2
  | .ok n => n

/-- An argument vector selecting `--files` with `--client-id`, `--org-id`
and `--instance-url` present but no `--workspace-id`. -/
def argsFilesNoWs : Args :=
  ⟨false, false, true, false, some "org", some "url", none, some "client"⟩

/-- An argument vector selecting `--instances` without the required
`--client-id`. -/
def argsInstancesNoClient : Args :=
  ⟨true, false, false, false, none, none, none, none⟩

theorem sumLens_nil : sumLens ([] : List (List α)) = 0 := rfl

theorem sumLens_cons (b : List α) (bs : List (List α)) :
    sumLens (b :: bs) = b.length + sumLens bs := rfl

theorem paginateLoop_of_err {fetch : Nat → Nat → Except ε (Page α)}
    {limit total offset : Nat} {e : ε} (h : offset < total)
    (he : fetch limit offset = Except.error e) :
    paginateLoop fetch limit total offset = ⟨[offset], [], some e⟩ := by
  rw [paginateLoop]
  simp [h, he]

theorem paginateLoop_of_empty {fetch : Nat → Nat → Except ε (Page α)}
    {limit total offset : Nat} {page : Page α} (h : offset < total)
    (hp : fetch limit offset = Except.ok page) (hi : page.items = []) :
    paginateLoop fetch limit total offset = ⟨[offset], [], none⟩ := by
  rw [paginateLoop]
  simp [h, hp, hi]

theorem paginateLoop_of_pos {fetch : Nat → Nat → Except ε (Page α)}
    {limit total offset : Nat} {page : Page α} (h : offset < total)
    (hp : fetch limit offset = Except.ok page) (hi : page.items ≠ []) :
    paginateLoop fetch limit total offset =
      ⟨offset :: (paginateLoop fetch limit total (offset + page.items.length)).calls,
        page.items :: (paginateLoop fetch limit total (offset + page.items.length)).batches,
        (paginateLoop fetch limit total (offset + page.items.length)).error⟩ := by
  rw [paginateLoop]
  simp [h, hp, hi]

theorem paginateLoop_of_done {fetch : Nat → Nat → Except ε (Page α)}
    {limit total offset : Nat} (h : total ≤ offset) :
    paginateLoop fetch limit total offset = ⟨[], [], none⟩ := by
  rw [paginateLoop]
  simp [Nat.not_lt.mpr h]

theorem paginate_of_err {fetch : Nat → Nat → Except ε (Page α)}
    {limit : Nat} {e : ε} (he : fetch limit 0 = Except.error e) :
    paginate fetch limit = ⟨[0], [], some e⟩ := by
  rw [paginate, he]

theorem paginate_of_empty {fetch : Nat → Nat → Except ε (Page α)}
    {limit : Nat} {page : Page α} (hp : fetch limit 0 = Except.ok page)
    (hi : page.items = []) :
    paginate fetch limit = ⟨[0], [], none⟩ := by
  rw [paginate, hp]
  simp [hi]

theorem paginate_of_pos {fetch : Nat → Nat → Except ε (Page α)}
    {limit : Nat} {page : Page α} (hp : fetch limit 0 = Except.ok page)
    (hi : page.items ≠ []) :
    paginate fetch limit =
      ⟨0 :: (paginateLoop fetch limit page.total page.items.length).calls,
        page.items :: (paginateLoop fetch limit page.total page.items.length).batches,
        (paginateLoop fetch limit page.total page.items.length).error⟩ := by
  rw [paginate, hp]
  simp [hi]

theorem paginateLoop_calls_eq_nil_iff (fetch : Nat → Nat → Except ε (Page α))
    (limit total offset : Nat) :
    (paginateLoop fetch limit total offset).calls = [] ↔ total ≤ offset := by
  constructor
  · intro hnil
    by_contra hlt
    rcases hc : fetch limit offset with e | page
    · rw [paginateLoop_of_err (by omega) hc] at hnil
      simp at hnil
    · by_cases hi : page.items = []
      · rw [paginateLoop_of_empty (by omega) hc hi] at hnil
        simp at hnil
      · rw [paginateLoop_of_pos (by omega) hc hi] at hnil
        simp at hnil
  · intro hle
    rw [paginateLoop_of_done hle]

theorem paginateLoop_calls_head (fetch : Nat → Nat → Except ε (Page α))
    (limit total offset : Nat) (h : offset < total) :
    (paginateLoop fetch limit total offset).calls.head? = some offset := by
  rcases hc : fetch limit offset with e | page
  · rw [paginateLoop_of_err h hc]
    rfl
  · by_cases hi : page.items = []
    · rw [paginateLoop_of_empty h hc hi]
      rfl
    · rw [paginateLoop_of_pos h hc hi]
      rfl

theorem paginateLoop_calls_getD (fetch : Nat → Nat → Except ε (Page α))
    (limit total : Nat) :
    ∀ offset i, i < (paginateLoop fetch limit total offset).calls.length →
      (paginateLoop fetch limit total offset).calls.getD i 0 =
        offset + sumLens ((paginateLoop fetch limit total offset).batches.take i) := by
  intro offset
  induction offset using paginateLoop.induct fetch limit total with
  | case1 x hx e he =>
      rw [paginateLoop_of_err hx he]
      intro i hi
      simp at hi
      have hi0 : i = 0 := by omega
      subst hi0
      simp [sumLens]
  | case2 x hx page hp hemp =>
      rw [paginateLoop_of_empty hx hp (by simpa using hemp)]
      intro i hi
      simp at hi
      have hi0 : i = 0 := by omega
      subst hi0
      simp [sumLens]
  | case3 x hx page hp hne ih =>
      rw [paginateLoop_of_pos hx hp (by simpa using hne)]
      intro i hi
      simp only [List.length_cons] at hi
      match i with
      | 0 => simp [sumLens]
      | i + 1 =>
          have hlen : i < (paginateLoop fetch limit total (x + page.items.length)).calls.length :=
            by omega
          have hrec := ih i hlen
          simp only [List.getD_cons_succ, List.take_succ_cons, sumLens_cons, hrec]
          omega
  | case4 x hx =>
      rw [paginateLoop_of_done (by omega)]
      intro i hi
      simp at hi

/-- C2: every fetch call `paginate` makes passes an offset equal to the
number of items received over the batches yielded before that call: the
first call uses offset `0`, and each later call's offset exceeds the
previous one's by the length of the page actually returned, not by the
nominal `limit`. -/
theorem paginate_offset_eq_sum_of_batches (fetch : Nat → Nat → Except ε (Page α))
    (limit : Nat) (i : Nat) (hi : i < (paginate fetch limit).calls.length) :
    (paginate fetch limit).calls.getD i 0 =
      sumLens ((paginate fetch limit).batches.take i) := by
  rcases hc : fetch limit 0 with e | page
  · rw [paginate_of_err hc] at hi ⊢
    simp at hi
    have hi0 : i = 0 := by omega
    subst hi0
    simp [sumLens]
  · by_cases hemp : page.items = []
    · rw [paginate_of_empty hc hemp] at hi ⊢
      simp at hi
      have hi0 : i = 0 := by omega
      subst hi0
      simp [sumLens]
    · rw [paginate_of_pos hc hemp] at hi ⊢
      simp only [List.length_cons] at hi
      match i with
      | 0 => simp [sumLens]
      | i + 1 =>
          have hlen :
              i < (paginateLoop fetch limit page.total page.items.length).calls.length := by
            omega
          have hrec := paginateLoop_calls_getD fetch limit page.total page.items.length i hlen
          simp only [List.getD_cons_succ, List.take_succ_cons, sumLens_cons, hrec]

theorem uniform120_trace :
    paginate (uniformFetch 120) 50 =
      ⟨[0, 50, 100], [List.range' 0 50, List.range' 50 50, List.range' 100 20], none⟩ := by
  simp [paginate, paginateLoop, uniformFetch, pureFetch, uniformPage]

theorem uniform100_trace :
    paginate (uniformFetch 100) 50 =
      ⟨[0, 50], [List.range' 0 50, List.range' 50 50], none⟩ := by
  simp [paginate, paginateLoop, uniformFetch, pureFetch, uniformPage]

theorem overFetch_trace : paginate overFetch 50 = ⟨[0], [[7, 8]], none⟩ := by
  simp [paginate, paginateLoop, overFetch, pureFetch, overPageF, overPage]

theorem errFetch_trace :
    paginate errFetch 50 = ⟨[0, 50], [List.range' 0 50], some "boom"⟩ := by
  simp [paginate, paginateLoop, errFetch, uniformPage]

theorem paginate_offset_eq_sum_of_batches_witness :
    2 < (paginate (uniformFetch 120) 50).calls.length ∧
      (paginate (uniformFetch 120) 50).calls.getD 2 0 =
        sumLens ((paginate (uniformFetch 120) 50).batches.take 2) := by
  constructor
  · rw [uniform120_trace]
    decide
  · exact paginate_offset_eq_sum_of_batches (uniformFetch 120) 50 2
      (by rw [uniform120_trace]; decide)

/-- C4: if the first fetched page is empty, `paginate` yields no batches,
whatever `total` the first response reports (including `total = 0`), and
exactly one fetch call is made, at offset `0`: the first empty page hits
`if not items: break` before any later call. -/
theorem paginate_first_page_empty (f : Nat → Nat → Page α) (limit : Nat)
    (h : (f limit 0).items = []) :
    paginate (pureFetch f) limit = ⟨[0], [], none⟩ :=
  paginate_of_empty rfl h

theorem paginate_first_page_empty_witness :
    paginate (pureFetch emptyPageF) 50 = ⟨[0], [], none⟩ :=
  paginate_first_page_empty emptyPageF 50 rfl

/-- C10: a nonempty first page is always yielded, whatever total the first
response reports: the captured total is only consulted before the next
fetch call.  `overFetch` reports `total = 0` yet its nonempty first page
is yielded, so the concatenation of batches exceeds the reported total. -/
theorem paginate_first_page_always_yielded :
    (∀ (α : Type) (f : Nat → Nat → Page α) (limit : Nat), (f limit 0).items ≠ [] →
      (paginate (pureFetch f) limit).batches.head? = some (f limit 0).items) ∧
    overPage.total = 0 ∧
    (paginate overFetch 50).batches = [overPage.items] ∧
    overPage.total < (paginate overFetch 50).batches.flatten.length := by
  refine ⟨fun α f limit h => ?_, rfl, ?_, ?_⟩
  · rw [paginate_of_pos rfl h]
    rfl
  · rw [overFetch_trace]
    rfl
  · rw [overFetch_trace]
    decide

theorem paginate_first_page_always_yielded_witness :
    (paginate overFetch 50).batches.head? = some (overPageF 50 0).items :=
  paginate_first_page_always_yielded.1 Nat overPageF 50 (by decide)

theorem paginateLoop_calls_getD_zero (fetch : Nat → Nat → Except ε (Page α))
    (limit total offset : Nat) (h : offset < total) :
    (paginateLoop fetch limit total offset).calls.getD 0 0 = offset := by
  have hh := paginateLoop_calls_head fetch limit total offset h
  cases hc : (paginateLoop fetch limit total offset).calls with
  | nil => rw [hc] at hh; simp at hh
  | cons c cs =>
      rw [hc] at hh
      simp at hh
      simp [hh]

theorem paginateLoop_stop (f : Nat → Nat → Page α) (limit total : Nat) :
    ∀ offset,
      (∀ i, i + 1 < (paginateLoop (pureFetch f) limit total offset).calls.length →
        (f limit ((paginateLoop (pureFetch f) limit total offset).calls.getD i 0)).items ≠ [] ∧
          (paginateLoop (pureFetch f) limit total offset).calls.getD (i + 1) 0 < total) ∧
      (∀ lc, (paginateLoop (pureFetch f) limit total offset).calls.getLast? = some lc →
        (f limit lc).items = [] ∨ total ≤ lc + (f limit lc).items.length) := by
  intro offset
  induction offset using paginateLoop.induct (pureFetch f) limit total with
  | case1 x hx e he => exact absurd he (by simp [pureFetch])
  | case2 x hx page hp hemp =>
      have hpage : f limit x = page := by
        simpa [pureFetch] using hp
      rw [paginateLoop_of_empty hx hp (by simpa using hemp)]
      constructor
      · intro i hi
        simp at hi
      · intro lc hlc
        simp at hlc
        subst hlc
        left
        rw [hpage]
        simpa using hemp
  | case3 x hx page hp hne ih =>
      have hpage : f limit x = page := by
        simpa [pureFetch] using hp
      have hne' : page.items ≠ [] := by simpa using hne
      rw [paginateLoop_of_pos hx hp hne']
      constructor
      · intro i hi
        simp only [List.length_cons] at hi
        match i with
        | 0 =>
            have hrest :
                (paginateLoop (pureFetch f) limit total (x + page.items.length)).calls ≠ [] := by
              intro hnil
              rw [List.length_eq_zero.mpr hnil] at hi
              omega
            have hlt : x + page.items.length < total := by
              have := (paginateLoop_calls_eq_nil_iff (pureFetch f) limit total
                (x + page.items.length)).not.mp hrest
              omega
            refine ⟨by simpa [hpage] using hne', ?_⟩
            show (x :: (paginateLoop (pureFetch f) limit total
              (x + page.items.length)).calls).getD (0 + 1) 0 < total
            rw [List.getD_cons_succ,
              paginateLoop_calls_getD_zero (pureFetch f) limit total
                (x + page.items.length) hlt]
            exact hlt
        | i + 1 =>
            have := (ih.1) i (by omega)
            simpa using this
      · intro lc hlc
        cases hrest : (paginateLoop (pureFetch f) limit total (x + page.items.length)).calls with
        | nil =>
            rw [hrest] at hlc
            simp at hlc
            subst hlc
            right
            have := (paginateLoop_calls_eq_nil_iff (pureFetch f) limit total
              (x + page.items.length)).mp hrest
            rw [hpage]
            omega
        | cons c cs =>
            rw [hrest] at hlc
            rw [List.getLast?_cons_cons] at hlc
            exact ih.2 lc (by rw [hrest]; exact hlc)
  | case4 x hx =>
      rw [paginateLoop_of_done (by omega)]
      constructor
      · intro i hi
        simp at hi
      · intro lc hlc
        simp at hlc

/-- C1: `paginate` always makes a first fetch call, a further call is made
only while the previous page was nonempty and the accumulated offset is
still below the total captured from the first response, and at the last
call one of the two stop conditions holds: the page it returned was empty,
or the accumulated offset (the call's offset plus the items it returned)
reached that total. -/
theorem paginate_stop_condition (f : Nat → Nat → Page α) (limit : Nat) :
    (paginate (pureFetch f) limit).calls ≠ [] ∧
    (∀ i, i + 1 < (paginate (pureFetch f) limit).calls.length →
      (f limit ((paginate (pureFetch f) limit).calls.getD i 0)).items ≠ [] ∧
        (paginate (pureFetch f) limit).calls.getD (i + 1) 0 < (f limit 0).total) ∧
    (∀ lc, (paginate (pureFetch f) limit).calls.getLast? = some lc →
      (f limit lc).items = [] ∨
        (f limit 0).total ≤ lc + (f limit lc).items.length) := by
  by_cases hemp : (f limit 0).items = []
  · rw [paginate_of_empty rfl hemp]
    refine ⟨by simp, fun i hi => ?_, fun lc hlc => ?_⟩
    · simp at hi
    · simp at hlc
      subst hlc
      exact Or.inl hemp
  · rw [paginate_of_pos rfl hemp]
    refine ⟨by simp, fun i hi => ?_, fun lc hlc => ?_⟩
    · simp only [List.length_cons] at hi
      match i with
      | 0 =>
          have hrest :
              (paginateLoop (pureFetch f) limit (f limit 0).total
                (f limit 0).items.length).calls ≠ [] := by
            intro hnil
            rw [List.length_eq_zero.mpr hnil] at hi
            omega
          have hlt : (f limit 0).items.length < (f limit 0).total := by
            have := (paginateLoop_calls_eq_nil_iff (pureFetch f) limit (f limit 0).total
              (f limit 0).items.length).not.mp hrest
            omega
          refine ⟨by simpa using hemp, ?_⟩
          show (0 :: (paginateLoop (pureFetch f) limit (f limit 0).total
            (f limit 0).items.length).calls).getD (0 + 1) 0 < (f limit 0).total
          rw [List.getD_cons_succ,
            paginateLoop_calls_getD_zero (pureFetch f) limit (f limit 0).total
              (f limit 0).items.length hlt]
          exact hlt
      | i + 1 =>
          have := (paginateLoop_stop f limit (f limit 0).total
            (f limit 0).items.length).1 i (by omega)
          simpa using this
    · cases hrest : (paginateLoop (pureFetch f) limit (f limit 0).total
          (f limit 0).items.length).calls with
      | nil =>
          rw [hrest] at hlc
          simp at hlc
          subst hlc
          right
          have := (paginateLoop_calls_eq_nil_iff (pureFetch f) limit (f limit 0).total
            (f limit 0).items.length).mp hrest
          omega
      | cons c cs =>
          rw [hrest] at hlc
          rw [List.getLast?_cons_cons] at hlc
          exact (paginateLoop_stop f limit (f limit 0).total
            (f limit 0).items.length).2 lc (by rw [hrest]; exact hlc)

theorem paginate_stop_condition_witness :
    ((uniformPage 120 50 ((paginate (uniformFetch 120) 50).calls.getD 0 0)).items ≠ [] ∧
      (paginate (uniformFetch 120) 50).calls.getD 1 0 < (uniformPage 120 50 0).total) ∧
    ((uniformPage 120 50 100).items = [] ∨
      (uniformPage 120 50 0).total ≤ 100 + (uniformPage 120 50 100).items.length) := by
  have h := paginate_stop_condition (uniformPage 120) 50
  have ht : paginate (pureFetch (uniformPage 120)) 50 =
      ⟨[0, 50, 100], [List.range' 0 50, List.range' 50 50, List.range' 100 20], none⟩ :=
    uniform120_trace
  refine ⟨h.2.1 0 ?_, h.2.2 100 ?_⟩
  · rw [ht]
    decide
  · rw [ht]
    decide

theorem paginate_eq_loop (f : Nat → Nat → Page α) (limit : Nat)
    (h : 0 < (f limit 0).total) :
    paginate (pureFetch f) limit =
      paginateLoop (pureFetch f) limit (f limit 0).total 0 := by
  by_cases hemp : (f limit 0).items = []
  · rw [paginate_of_empty rfl hemp, paginateLoop_of_empty h rfl hemp]
  · rw [paginate_of_pos rfl hemp, paginateLoop_of_pos h rfl hemp]
    simp

theorem range'_append_one (s m n : Nat) :
    List.range' s m ++ List.range' (s + m) n = List.range' s (m + n) := by
  have h := List.range'_append s m n 1
  rw [Nat.one_mul] at h
  rw [h, Nat.add_comm]

theorem paginateLoop_uniform (total limit : Nat) (hl : 0 < limit) :
    ∀ offset, offset ≤ total →
      (paginateLoop (uniformFetch total) limit total offset).batches.flatten =
          List.range' offset (total - offset) ∧
        (paginateLoop (uniformFetch total) limit total offset).batches.length =
          (total - offset + limit - 1) / limit ∧
        (paginateLoop (uniformFetch total) limit total offset).error = none := by
  intro offset
  induction offset using paginateLoop.induct (uniformFetch total) limit total with
  | case1 x hx e he => exact absurd he (by simp [uniformFetch, pureFetch])
  | case2 x hx page hp hemp =>
      intro _
      have hpage : uniformPage total limit x = page := by
        simpa [uniformFetch, pureFetch] using hp
      rw [← hpage] at hemp
      simp only [uniformPage, List.isEmpty_eq_true, List.range'_eq_nil] at hemp
      omega
  | case3 x hx page hp hne ih =>
      intro hle
      have hpage : uniformPage total limit x = page := by
        simpa [uniformFetch, pureFetch] using hp
      have hne' : page.items ≠ [] := by simpa using hne
      have hlen : page.items.length = min limit (total - x) := by
        rw [← hpage]
        simp [uniformPage]
      have hpos : 0 < page.items.length := List.length_pos.mpr hne'
      have hofs : x + page.items.length ≤ total := by
        omega
      obtain ⟨ihj, ihl, ihe⟩ := ih hofs
      rw [paginateLoop_of_pos hx hp hne']
      refine ⟨?_, ?_, by simpa using ihe⟩
      · show (page.items ::
            (paginateLoop (uniformFetch total) limit total
              (x + page.items.length)).batches).flatten =
          List.range' x (total - x)
        rw [List.flatten_cons, ihj]
        have hitems : page.items = List.range' x page.items.length := by
          rw [← hpage]
          simp [uniformPage]
        have harith : page.items.length + (total - (x + page.items.length)) =
            total - x := by omega
        have hsplit : List.range' x page.items.length ++
            List.range' (x + page.items.length)
              (total - (x + page.items.length)) =
            List.range' x (total - x) := by
          rw [range'_append_one, harith]
        rw [← hsplit, ← hitems]
      · show (page.items ::
            (paginateLoop (uniformFetch total) limit total
              (x + page.items.length)).batches).length =
          (total - x + limit - 1) / limit
        rw [List.length_cons, ihl]
        rcases Nat.le_total (total - x) limit with hsmall | hbig
        · have h0 : total - (x + page.items.length) = 0 := by omega
          rw [h0]
          have hz : (0 + limit - 1) / limit = 0 := Nat.div_eq_of_lt (by omega)
          rw [hz]
          have hone : (total - x + limit - 1) / limit = 1 :=
            Nat.div_eq_of_lt_le (by omega) (by omega)
          rw [hone]
        · have hm : page.items.length = limit := by omega
          rw [hm]
          have h3 : total - (x + limit) + limit - 1 = total - x - 1 := by omega
          have h4 : total - x + limit - 1 = (total - x - 1) + limit := by omega
          rw [h3, h4, Nat.add_div_right _ hl]
  | case4 x hx =>
      intro hle
      have hx' : x = total := by omega
      rw [paginateLoop_of_done (by omega)]
      subst hx'
      refine ⟨by simp, ?_, rfl⟩
      simp only [List.length_nil]
      rw [Nat.sub_self]
      exact (Nat.div_eq_of_lt (by omega)).symm

/-- C3 counterexample: with `total = 100`, `limit = 50`, the endpoint's
page sequence is two full pages followed by an empty final page (the page
at offset `100` is empty), yet the paginator yields `ceil(100/50) = 2`
batches — not one fewer. -/
theorem paginate_uniform_ceil_minus_one_false :
    uniformFetch 100 50 100 = Except.ok ⟨100, []⟩ ∧
    (paginate (uniformFetch 100) 50).batches.length = (100 + 50 - 1) / 50 ∧
    (paginate (uniformFetch 100) 50).batches.length ≠ (100 + 50 - 1) / 50 - 1 := by
  refine ⟨by simp [uniformFetch, pureFetch, uniformPage], ?_, ?_⟩
  · rw [uniform100_trace]
    decide
  · rw [uniform100_trace]
    decide

/-- C3 (amended): for the well-behaved endpoint whose pages hold exactly
`limit` items until a final shorter (possibly empty) page and whose first
response reports the item count as `total`, the paginator yields
`ceil(total/limit)` batches — also when `limit` divides `total`, in which
case the sequence's final empty page is never fetched and the batch count
is one fewer than the number of pages of the sequence, that empty page
included — and the concatenation of the batches is exactly the `total`
items in order; in particular for `total = 120`, `limit = 50` the batch
sizes are `[50, 50, 20]` and the offsets requested are `[0, 50, 100]`. -/
theorem paginate_uniform_batches (total limit : Nat) (hl : 0 < limit) :
    (paginate (uniformFetch total) limit).batches.length =
        (total + limit - 1) / limit ∧
    (paginate (uniformFetch total) limit).batches.flatten = List.range' 0 total ∧
    (paginate (uniformFetch total) limit).batches.flatten.length = total ∧
    (paginate (uniformFetch 120) 50).batches.map List.length = [50, 50, 20] ∧
    (paginate (uniformFetch 120) 50).calls = [0, 50, 100] := by
  have hconc1 : (paginate (uniformFetch 120) 50).batches.map List.length =
      [50, 50, 20] := by
    rw [uniform120_trace]
    simp
  have hconc2 : (paginate (uniformFetch 120) 50).calls = [0, 50, 100] := by
    rw [uniform120_trace]
  rcases Nat.eq_zero_or_pos total with h0 | hpos
  · subst h0
    have hemp : (uniformPage 0 limit 0).items = [] := by
      simp [uniformPage]
    have ht : paginate (uniformFetch 0) limit = ⟨[0], [], none⟩ :=
      paginate_of_empty rfl hemp
    rw [ht]
    refine ⟨?_, by simp, by simp, hconc1, hconc2⟩
    simp only [List.length_nil]
    exact (Nat.div_eq_of_lt (by omega)).symm
  · have htot : (uniformPage total limit 0).total = total := rfl
    have heq : paginate (uniformFetch total) limit =
        paginateLoop (uniformFetch total) limit total 0 := by
      have h := paginate_eq_loop (uniformPage total) limit (by simpa [htot] using hpos)
      simpa [htot] using h
    obtain ⟨hj, hlen, _⟩ := paginateLoop_uniform total limit hl 0 (Nat.zero_le total)
    rw [heq]
    refine ⟨?_, ?_, ?_, hconc1, hconc2⟩
    · rw [hlen, Nat.sub_zero]
    · rw [hj, Nat.sub_zero]
    · rw [hj]
      simp [List.length_range']

theorem paginate_uniform_batches_witness :
    0 < 50 ∧
      (paginate (uniformFetch 120) 50).batches.flatten.length = 120 ∧
      (paginate (uniformFetch 120) 50).batches.map List.length = [50, 50, 20] := by
  have h := paginate_uniform_batches 120 50 (by decide)
  exact ⟨by decide, h.2.2.1, h.2.2.2.1⟩

theorem respItems_error_inv {r : Except ε (Page α)} {e : ε}
    (h : respItems r = Except.error e) : r = Except.error e := by
  cases r with
  | error e' => simpa [respItems] using h
  | ok p => simp [respItems] at h

theorem respItems_ok_inv {r : Except ε (Page α)} {l : List α}
    (h : respItems r = Except.ok l) : ∃ p, r = Except.ok p ∧ p.items = l := by
  cases r with
  | error e => simp [respItems] at h
  | ok p => exact ⟨p, rfl, by simpa [respItems] using h⟩

theorem paginateLoop_congr (f g : Nat → Nat → Except ε (Page α)) (limit total : Nat)
    (hfg : ∀ o, respItems (g limit o) = respItems (f limit o)) :
    ∀ offset, paginateLoop g limit total offset = paginateLoop f limit total offset := by
  intro offset
  induction offset using paginateLoop.induct f limit total with
  | case1 x hx e he =>
      have hg : g limit x = Except.error e := by
        apply respItems_error_inv
        rw [hfg x, he]
        rfl
      rw [paginateLoop_of_err hx he, paginateLoop_of_err hx hg]
  | case2 x hx page hp hemp =>
      have hemp' : page.items = [] := by simpa using hemp
      obtain ⟨q, hq, hqi⟩ : ∃ q, g limit x = Except.ok q ∧ q.items = page.items := by
        apply respItems_ok_inv
        rw [hfg x, hp]
        rfl
      rw [paginateLoop_of_empty hx hp hemp',
        paginateLoop_of_empty hx hq (by rw [hqi, hemp'])]
  | case3 x hx page hp hne ih =>
      have hne' : page.items ≠ [] := by simpa using hne
      obtain ⟨q, hq, hqi⟩ : ∃ q, g limit x = Except.ok q ∧ q.items = page.items := by
        apply respItems_ok_inv
        rw [hfg x, hp]
        rfl
      rw [paginateLoop_of_pos hx hp hne',
        paginateLoop_of_pos hx hq (by rw [hqi]; exact hne')]
      rw [hqi, ih]
  | case4 x hx =>
      rw [paginateLoop_of_done (by omega), paginateLoop_of_done (by omega)]

/-- C5: `paginate` reads the `total` field only from the first response.
Any two fetch functions that agree on the items (and errors) of every
response and on the `total` of the response to the first call — the one at
offset `0` — produce identical traces: the totals reported by later
responses have no effect on the calls made or the batches yielded. -/
theorem paginate_total_first_response_only (f g : Nat → Nat → Except ε (Page α))
    (limit : Nat)
    (hitems : ∀ o, respItems (g limit o) = respItems (f limit o))
    (htotal : ∀ p q, f limit 0 = Except.ok p → g limit 0 = Except.ok q →
      q.total = p.total) :
    paginate g limit = paginate f limit := by
  cases hf : f limit 0 with
  | error e =>
      have hg : g limit 0 = Except.error e := by
        apply respItems_error_inv
        rw [hitems 0, hf]
        rfl
      rw [paginate_of_err hf, paginate_of_err hg]
  | ok p =>
      obtain ⟨q, hq, hqi⟩ : ∃ q, g limit 0 = Except.ok q ∧ q.items = p.items := by
        apply respItems_ok_inv
        rw [hitems 0, hf]
        rfl
      have ht := htotal p q hf hq
      by_cases hemp : p.items = []
      · rw [paginate_of_empty hf hemp, paginate_of_empty hq (by rw [hqi, hemp])]
      · rw [paginate_of_pos hf hemp, paginate_of_pos hq (by rw [hqi]; exact hemp)]
        rw [hqi, ht, paginateLoop_congr f g limit p.total hitems]

theorem paginate_total_first_response_only_witness :
    paginate shiftTotalFetch 50 = paginate (uniformFetch 120) 50 := by
  apply paginate_total_first_response_only
  · intro o
    rfl
  · intro p q hp hq
    have hp' : p = uniformPage 120 50 0 := by
      simpa [uniformFetch, pureFetch] using hp.symm
    have hq' : q.total = 120 := by
      simp only [shiftTotalFetch, Except.ok.injEq] at hq
      rw [← hq]
      simp
    rw [hp', hq']
    rfl

theorem paginateLoop_error_prop (fetch : Nat → Nat → Except ε (Page α))
    (limit total : Nat) :
    ∀ offset i e, i < (paginateLoop fetch limit total offset).calls.length →
      fetch limit ((paginateLoop fetch limit total offset).calls.getD i 0) =
        Except.error e →
      (paginateLoop fetch limit total offset).error = some e ∧
        i + 1 = (paginateLoop fetch limit total offset).calls.length ∧
        (paginateLoop fetch limit total offset).batches.length = i := by
  intro offset
  induction offset using paginateLoop.induct fetch limit total with
  | case1 x hx e' he' =>
      intro i e hi hcall
      rw [paginateLoop_of_err hx he'] at hi hcall ⊢
      simp only [List.length_cons, List.length_nil] at hi
      have hi0 : i = 0 := by omega
      subst hi0
      rw [List.getD_cons_zero, he'] at hcall
      injection hcall with hee
      subst hee
      exact ⟨rfl, rfl, rfl⟩
  | case2 x hx page hp hemp =>
      intro i e hi hcall
      rw [paginateLoop_of_empty hx hp (by simpa using hemp)] at hi hcall
      simp only [List.length_cons, List.length_nil] at hi
      have hi0 : i = 0 := by omega
      subst hi0
      rw [List.getD_cons_zero, hp] at hcall
      cases hcall
  | case3 x hx page hp hne ih =>
      intro i e hi hcall
      have hne' : page.items ≠ [] := by simpa using hne
      rw [paginateLoop_of_pos hx hp hne'] at hi hcall ⊢
      simp only [List.length_cons] at hi
      match i with
      | 0 =>
          rw [List.getD_cons_zero, hp] at hcall
          cases hcall
      | i + 1 =>
          rw [List.getD_cons_succ] at hcall
          obtain ⟨h1, h2, h3⟩ := ih i e (by omega) hcall
          refine ⟨h1, ?_, ?_⟩
          · simp only [List.length_cons]
            omega
          · simp only [List.length_cons]
            omega
  | case4 x hx =>
      intro i e hi hcall
      rw [paginateLoop_of_done (by omega)] at hi
      simp at hi

/-- C6: when a fetch call raises, `paginate` re-raises the same error to
its caller, makes that erroring call its last fetch call (no retries, no
further calls), and yields no batch for it: exactly the batches of the
calls before the error are yielded. -/
theorem paginate_error_propagation (fetch : Nat → Nat → Except ε (Page α))
    (limit i : Nat) (e : ε) (hi : i < (paginate fetch limit).calls.length)
    (hcall : fetch limit ((paginate fetch limit).calls.getD i 0) = Except.error e) :
    (paginate fetch limit).error = some e ∧
      i + 1 = (paginate fetch limit).calls.length ∧
      (paginate fetch limit).batches.length = i := by
  cases hf : fetch limit 0 with
  | error e' =>
      rw [paginate_of_err hf] at hi hcall ⊢
      simp only [List.length_cons, List.length_nil] at hi
      have hi0 : i = 0 := by omega
      subst hi0
      rw [List.getD_cons_zero, hf] at hcall
      injection hcall with hee
      subst hee
      exact ⟨rfl, rfl, rfl⟩
  | ok page =>
      by_cases hemp : page.items = []
      · rw [paginate_of_empty hf hemp] at hi hcall
        simp only [List.length_cons, List.length_nil] at hi
        have hi0 : i = 0 := by omega
        subst hi0
        rw [List.getD_cons_zero, hf] at hcall
        cases hcall
      · rw [paginate_of_pos hf hemp] at hi hcall ⊢
        simp only [List.length_cons] at hi
        match i with
        | 0 =>
            rw [List.getD_cons_zero, hf] at hcall
            cases hcall
        | i + 1 =>
            rw [List.getD_cons_succ] at hcall
            obtain ⟨h1, h2, h3⟩ := paginateLoop_error_prop fetch limit page.total
              page.items.length i e (by omega) hcall
            refine ⟨h1, ?_, ?_⟩
            · simp only [List.length_cons]
              omega
            · simp only [List.length_cons]
              omega

theorem paginate_error_propagation_witness :
    (paginate errFetch 50).error = some "boom" ∧
      1 + 1 = (paginate errFetch 50).calls.length ∧
      (paginate errFetch 50).batches.length = 1 := by
  apply paginate_error_propagation errFetch 50 1 "boom"
  · rw [errFetch_trace]
    decide
  · rw [errFetch_trace]
    rfl

/-- C7 counterexample: the workspace listing operation constructs its
connector without a context manager, so no release happens when the
operation exits — the claim that every listing operation releases its
connector on exit fails here. -/
theorem connector_release_missing :
    ConnEv.release ∉ (get_workspace_page (uniformFetch 0)).2 := by
  simp [get_workspace_page]

/-- C7 (amended): only the organizations operation scopes its connector
with a context manager — it acquires the connector on entry and releases
it when the operation exits, both on success and on error.  The
workspace, file, and object operations construct their connectors without
a context manager and never release them. -/
theorem connector_release_organizations_only (ε α : Type) :
    (∀ r : Except ε (List α),
      (get_organizations r).2 = [ConnEv.acquire, ConnEv.release]) ∧
    (∀ fetch : Nat → Nat → Except ε (Page α),
      (get_workspace_page fetch).2 = [ConnEv.acquire] ∧
        (get_files fetch).2 = [ConnEv.acquire] ∧
        (get_objects fetch).2 = [ConnEv.acquire]) := by
  refine ⟨fun r => ?_, fun fetch => ⟨rfl, rfl, rfl⟩⟩
  cases r <;> rfl

theorem connector_release_organizations_only_witness :
    (get_organizations (Except.error "down" : Except String (List Nat))).2 =
        [ConnEv.acquire, ConnEv.release] ∧
      (get_files errFetch).2 = [ConnEv.acquire] :=
  ⟨(connector_release_organizations_only String Nat).1 (Except.error "down"),
    ((connector_release_organizations_only String Nat).2 errFetch).2.1⟩

theorem foldl_append_eq_flatten (bs : List (List α)) :
    ∀ acc : List α, bs.foldl (fun acc b => acc ++ b) acc = acc ++ bs.flatten := by
  induction bs with
  | nil =>
      intro acc
      simp
  | cons b bs ih =>
      intro acc
      simp [ih, List.append_assoc]

theorem collectBatches_of_ok (t : Trace ε α) (h : t.error = none) :
    collectBatches t = Except.ok t.batches.flatten := by
  unfold collectBatches
  rw [h]
  simp [foldl_append_eq_flatten]

/-- C9: each paginated handler returns exactly the concatenation of the
batches the paginator yields, in the order yielded — the `extend` loop
performs no deduplication, filtering, or sorting. -/
theorem handlers_return_concatenation (ε α : Type)
    (fetch : Nat → Nat → Except ε (Page α)) :
    ((paginate fetch 50).error = none →
      (get_workspace_page fetch).1 = Except.ok (paginate fetch 50).batches.flatten) ∧
    ((paginate fetch defaultLimit).error = none →
      (get_files fetch).1 = Except.ok (paginate fetch defaultLimit).batches.flatten) ∧
    ((paginate fetch defaultLimit).error = none →
      (get_objects fetch).1 = Except.ok (paginate fetch defaultLimit).batches.flatten) :=
  ⟨fun h => collectBatches_of_ok _ h, fun h => collectBatches_of_ok _ h,
    fun h => collectBatches_of_ok _ h⟩

theorem handlers_return_concatenation_witness :
    (get_workspace_page (uniformFetch 120)).1 =
      Except.ok (paginate (uniformFetch 120) 50).batches.flatten :=
  (handlers_return_concatenation Empty Nat (uniformFetch 120)).1
    (by rw [uniform120_trace])

theorem parseArgs_err_of_modeCount (a : Args) (h : modeCount a ≠ 1) :
    ∃ m, parseArgs a = Except.error m := by
  unfold parseArgs
  split_ifs with h0 h1 h2 <;> first | exact ⟨_, rfl⟩ | omega

theorem parseArgs_ok_inv (a b : Args) (h : parseArgs a = Except.ok b) : b = a := by
  unfold parseArgs at h
  split_ifs at h
  injection h with hba
  exact hba.symm

theorem parseArgs_ok_client (a b : Args) (h : parseArgs a = Except.ok b) :
    a.client_id ≠ none := by
  unfold parseArgs at h
  split_ifs at h with h0 h1 h2
  exact h2

theorem modeCount_files_unique (a : Args) (hmode : modeCount a = 1)
    (hf : a.files = true) :
    a.instances = false ∧ a.workspaces = false ∧ a.objects = false := by
  unfold modeCount at hmode
  rw [hf] at hmode
  cases hinst : a.instances <;> cases hw : a.workspaces <;> cases ho : a.objects <;>
    rw [hinst, hw, ho] at hmode <;> simp_all

theorem validateArgs_err (a : Args)
    (h : (a.workspaces = true ∧
            (truthy a.org_id = false ∨ truthy a.instance_url = false)) ∨
         (a.files = true ∧
            (truthy a.workspace_id = false ∨ truthy a.instance_url = false ∨
              truthy a.org_id = false)) ∨
         (a.objects = true ∧
            (truthy a.workspace_id = false ∨ truthy a.instance_url = false ∨
              truthy a.org_id = false))) :
    ∃ m, validateArgs a = Except.error m := by
  unfold validateArgs
  split_ifs with h1 h2 h3
  · exact ⟨_, rfl⟩
  · exact ⟨_, rfl⟩
  · exact ⟨_, rfl⟩
  · exfalso
    simp only [Bool.and_eq_true, Bool.or_eq_true, Bool.not_eq_true'] at h1 h2 h3
    tauto

/-- C8: an argument vector selecting zero modes or more than one mode, or
a mode without its required options — the always-required `--client-id`
included — terminates with a usage error and a nonzero exit status before
login is attempted and before any network activity (the event list stays
empty); in the `--files` without `--workspace-id` case the message names
the missing requirement. -/
theorem main_usage_errors :
    (∀ a : Args,
      (modeCount a ≠ 1 ∨
        a.client_id = none ∨
        (a.workspaces = true ∧
          (truthy a.org_id = false ∨ truthy a.instance_url = false)) ∨
        (a.files = true ∧
          (truthy a.workspace_id = false ∨ truthy a.instance_url = false ∨
            truthy a.org_id = false)) ∨
        (a.objects = true ∧
          (truthy a.workspace_id = false ∨ truthy a.instance_url = false ∨
            truthy a.org_id = false))) →
      (main a).1 = [] ∧
        ∃ m, (main a).2 = Except.error m ∧ exitCode (main a).2 ≠ 0) ∧
    (∀ a : Args, modeCount a = 1 → a.files = true → a.client_id ≠ none →
      truthy a.workspace_id = false →
      main a =
        ([], Except.error "--files requires both --workspace-id, --instance-url and --org-id")) := by
  constructor
  · intro a h
    cases hp : parseArgs a with
    | error m =>
        refine ⟨by simp [main, hp], m, by simp [main, hp], ?_⟩
        simp [main, hp, exitCode]
    | ok b =>
        have hba : b = a := parseArgs_ok_inv a b hp
        subst hba
        have hmode : modeCount b = 1 := by
          by_contra hne
          obtain ⟨m, hm⟩ := parseArgs_err_of_modeCount b hne
          rw [hp] at hm
          cases hm
        have hclient : b.client_id ≠ none := parseArgs_ok_client b b hp
        have hmiss :
            (b.workspaces = true ∧
              (truthy b.org_id = false ∨ truthy b.instance_url = false)) ∨
            (b.files = true ∧
              (truthy b.workspace_id = false ∨ truthy b.instance_url = false ∨
                truthy b.org_id = false)) ∨
            (b.objects = true ∧
              (truthy b.workspace_id = false ∨ truthy b.instance_url = false ∨
                truthy b.org_id = false)) := by
          rcases h with h | h | h
          · exact absurd hmode h
          · exact absurd h hclient
          · exact h
        obtain ⟨m, hv⟩ := validateArgs_err b hmiss
        refine ⟨by simp [main, hp, hv], m, by simp [main, hp, hv], ?_⟩
        simp [main, hp, hv, exitCode]
  · intro a hmode hfiles hclient hws
    obtain ⟨hinst, hwsf, hobj⟩ := modeCount_files_unique a hmode hfiles
    have hp : parseArgs a = Except.ok a := by
      unfold parseArgs
      rw [if_neg (by omega), if_neg (by omega), if_neg hclient]
    have hv : validateArgs a =
        Except.error "--files requires both --workspace-id, --instance-url and --org-id" := by
      unfold validateArgs
      rw [hwsf, hfiles, hws]
      simp
    simp [main, hp, hv]

theorem main_usage_errors_witness :
    main argsFilesNoWs =
      ([], Except.error "--files requires both --workspace-id, --instance-url and --org-id") ∧
    (main argsFilesNoWs).1 = [] ∧
    (main argsInstancesNoClient).1 = [] := by
  have h2 := main_usage_errors.2 argsFilesNoWs (by decide) rfl (by simp [argsFilesNoWs]) rfl
  have h1 := (main_usage_errors.1 argsFilesNoWs
    (Or.inr (Or.inr (Or.inr (Or.inl ⟨rfl, Or.inl rfl⟩))))).1
  have h3 := (main_usage_errors.1 argsInstancesNoClient (Or.inr (Or.inl rfl))).1
  exact ⟨h2, h1, h3⟩

end EvoConsole
